import Mathlib

/-!
Verification development for the cabbage.town "townsquare" presence layer.

Server side (Go, package townsquare): the connection hub, per-client
move/chat handling, identity persistence across reconnects.
Client side (TypeScript): the reconnecting transport backoff schedule,
the click-to-move orchestrator throttle, and the chat-bubble word wrap.

Floats are modelled as rationals (every JSON-decodable number is finite),
times as integer milliseconds, and Go maps as association lists.
-/

namespace CabbageTown

/-- Server constants from the Go source (`moveThrottle`, `chatThrottle`,
`maxChatLen`, `sendBufSize`), times in integer milliseconds. -/
def moveThrottle : Int := 100

def chatThrottle : Int := 1000

def maxChatLen : Nat := 140

def sendBufSize : Nat := 32

/-- `clamp01` from the Go source: clamp a coordinate into [0,1]. -/
def clamp01 (v : ℚ) : ℚ :=
  if v < 0 then 0 else if v > 1 then 1 else v

/-- The adjective word list used by `generateName`. -/
def adjectives : List String :=
  ["sleepy", "bouncy", "fuzzy", "grumpy", "sneaky",
   "wobbly", "crunchy", "spicy", "toasty", "dizzy",
   "frosty", "jolly", "mellow", "perky", "zesty",
   "breezy", "chunky", "peppy", "silky", "wiggly"]

/-- The noun word list used by `generateName`. -/
def nouns : List String :=
  ["cabbage", "sprout", "turnip", "radish", "kale",
   "chard", "endive", "arugula", "kohlrabi", "fennel",
   "parsnip", "rutabaga", "celery", "broccoli", "bokchoy",
   "collard", "radicchio", "shallot", "scallion", "daikon"]

/-- `generateName` from the Go source; the two random draws
`rand.Intn(len(...))` are passed in as indices. -/
def generateName (ai ni : Nat) : String :=
  adjectives.getD (ai % adjectives.length) "" ++ " " ++
    nouns.getD (ni % nouns.length) ""

/-- `id` generation in `ServeWS`: `fmt.Sprintf("u%d", time.Now().UnixNano())`. -/
def genId (nanos : Nat) : String := "u" ++ toString nanos

/-- Spawn x coordinate: `0.3 + rand.Float64()*0.4` with `r ∈ [0,1)`. -/
def spawnX (r : ℚ) : ℚ := 3/10 + r * (4/10)

/-- Spawn y coordinate: `0.5 + rand.Float64()*0.3` with `r ∈ [0,1)`. -/
def spawnY (r : ℚ) : ℚ := 5/10 + r * (3/10)

/-- `userInfo` from the Go source: one entry of a `welcome` users list. -/
structure UserInfo where
  id : String
  name : String
  x : ℚ
  y : ℚ
  deriving DecidableEq, Repr

/-- The server→client messages the hub enqueues, one constructor per Go
message struct (`welcomeMsg`, `joinMsg`, `movedMsg`, `leaveMsg`,
`chattedMsg`); chat text is carried as a list of units (Go bytes). -/
inductive ServerMsg where
  | welcome (id name : String) (x y : ℚ) (users : List UserInfo)
  | join (id name : String) (x y : ℚ)
  | moved (id : String) (x y : ℚ)
  | leave (id : String)
  | chatted (id : String) (text : List Char)
  deriving DecidableEq, Repr

/-- `Client` from the Go source: one live connection. `send` is the
bounded outbound queue (capacity `sendBufSize`), oldest first. -/
structure Client where
  id : String
  token : String
  name : String
  x : ℚ
  y : ℚ
  lastMove : Int
  lastChat : Int
  send : List ServerMsg
  deriving DecidableEq, Repr

/-- `identity` from the Go source: persistent per-token state. -/
structure Identity where
  name : String
  x : ℚ
  y : ℚ
  deriving DecidableEq, Repr

/-- `Hub` from the Go source: live clients (Go: map id→Client, modelled as
a list) and the token→identity store (association list). -/
structure Hub where
  clients : List Client
  identities : List (String × Identity)
  deriving Repr

/-- `NewHub`. -/
def emptyHub : Hub := ⟨[], []⟩

/-- The non-blocking enqueue in `Hub.broadcast`:
`select { case c.send <- data: default: }` — append when the buffered
channel has room, drop the message otherwise. -/
def enqueue (c : Client) (m : ServerMsg) : Client :=
  if c.send.length < sendBufSize then { c with send := c.send ++ [m] } else c

/-- `Hub.broadcast`: enqueue `m` to every client except `excludeID`. -/
def Hub.broadcast (h : Hub) (m : ServerMsg) (excludeID : String) : Hub :=
  { h with clients :=
      h.clients.map (fun c => if c.id = excludeID then c else enqueue c m) }

/-- `Hub.broadcastAll`: `h.broadcast(data, "")`. -/
def Hub.broadcastAll (h : Hub) (m : ServerMsg) : Hub := h.broadcast m ""

/-- `Hub.addClient`. -/
def Hub.addClient (h : Hub) (c : Client) : Hub :=
  { h with clients := h.clients ++ [c] }

/-- `Hub.removeClient`. -/
def Hub.removeClient (h : Hub) (id : String) : Hub :=
  { h with clients := h.clients.filter (fun c => ¬ c.id = id) }

/-- `Hub.getUsers`: `{id, name, x, y}` of every client except `excludeID`. -/
def Hub.getUsers (h : Hub) (excludeID : String) : List UserInfo :=
  (h.clients.filter (fun c => ¬ c.id = excludeID)).map
    (fun c => ⟨c.id, c.name, c.x, c.y⟩)

/-- The blocking send `client.send <- welcome` in `ServeWS` (a plain
channel send, delivered unconditionally because the writer is draining). -/
def Hub.sendTo (h : Hub) (id : String) (m : ServerMsg) : Hub :=
  { h with clients :=
      h.clients.map (fun c => if c.id = id then { c with send := c.send ++ [m] } else c) }

/-- Look a client up by id (Go: `h.clients[id]`). -/
def Hub.findClient (h : Hub) (id : String) : Option Client :=
  h.clients.find? (fun c => decide (c.id = id))

/-- Write a client back by id (mutation of the shared `*Client` in Go). -/
def Hub.setClient (h : Hub) (c : Client) : Hub :=
  { h with clients := h.clients.map (fun d => if d.id = c.id then c else d) }

/-- `h.identities[token]` lookup. -/
def lookupIdent (ids : List (String × Identity)) (tok : String) : Option Identity :=
  (ids.find? (fun p => decide (p.1 = tok))).map Prod.snd

/-- In-place update of the identity stored for `tok`. -/
def updateIdent (ids : List (String × Identity)) (tok : String) (i : Identity) :
    List (String × Identity) :=
  ids.map (fun p => if p.1 = tok then (tok, i) else p)

/-- The `case "move":` branch of `Client.readPump`, acting on one client.
`now` is `time.Now()`; `parsed` is the result of the inner
`json.Unmarshal` into `clientMoveMsg` (`none` = malformed). Returns the
updated client and the `moved` payload to broadcast, if any. The source
sets `c.lastMove = now` before attempting the unmarshal. -/
def handleMove (c : Client) (now : Int) (parsed : Option (ℚ × ℚ)) :
    Client × Option ServerMsg :=
  if now - c.lastMove < moveThrottle then (c, none)
  else
    let c1 := { c with lastMove := now }
    match parsed with
    | none => (c1, none)
    | some (mx, my) =>
      let c2 := { c1 with x := clamp01 mx, y := clamp01 my }
      (c2, some (.moved c2.id c2.x c2.y))

/-- Whitespace test used to model Go `strings.TrimSpace` (ASCII subset of
`unicode.IsSpace`). -/
def isSpaceChar (ch : Char) : Bool :=
  ch = ' ' || ch = '\t' || ch = '\n' || ch = '\r'

/-- Model of Go `strings.TrimSpace`: drop whitespace from both ends. -/
def trimSpace (s : List Char) : List Char :=
  ((s.dropWhile isSpaceChar).reverse.dropWhile isSpaceChar).reverse

/-- The `case "chat":` branch of `Client.readPump`: throttle, parse,
trim, drop empty, truncate to `maxChatLen`, set `lastChat`, and return
the `chatted` payload (broadcast to all, sender included). -/
def handleChat (c : Client) (now : Int) (parsed : Option (List Char)) :
    Client × Option ServerMsg :=
  if now - c.lastChat < chatThrottle then (c, none)
  else
    match parsed with
    | none => (c, none)
    | some raw =>
      let text := trimSpace raw
      if text = [] then (c, none)
      else
        let text2 := if text.length > maxChatLen then text.take maxChatLen else text
        ({ c with lastChat := now }, some (.chatted c.id text2))

/-- One inbound frame after the outer `msgType` unmarshal: a `move` or
`chat` frame whose body may fail the inner unmarshal, or any other type
(ignored by the switch). -/
inductive Frame where
  | move (parsed : Option (ℚ × ℚ))
  | chat (parsed : Option (List Char))
  | other
  deriving Repr

/-- One iteration of the `Client.readPump` switch at hub level: find the
client, run the handler, write the client back, broadcast the payload —
`moved` excludes the sender, `chatted` goes to everyone. -/
def Hub.handleFrame (h : Hub) (id : String) (now : Int) (f : Frame) : Hub :=
  match h.findClient id with
  | none => h
  | some c =>
    match f with
    | .move p =>
      let r := handleMove c now p
      let h1 := h.setClient r.1
      match r.2 with
      | some m => h1.broadcast m c.id
      | none => h1
    | .chat p =>
      let r := handleChat c now p
      let h1 := h.setClient r.1
      match r.2 with
      | some m => h1.broadcastAll m
      | none => h1
    | .other => h

/-- Run a sequence of inbound `(now, frame)` pairs from one client. -/
def Hub.runFrames (h : Hub) (id : String) (steps : List (Int × Frame)) : Hub :=
  steps.foldl (fun acc s => acc.handleFrame id s.1 s.2) h

/-- The random draws `ServeWS` consumes when it must create a fresh
identity: two `rand.Intn` indices for the name and two `rand.Float64`
values for the spawn position. -/
structure RandSrc where
  adjIdx : Nat
  nounIdx : Nat
  rx : ℚ
  ry : ℚ
  deriving Repr

/-- The identity-resolution block of `ServeWS` (under `h.mu.Lock()`):
returns the hub (identity store possibly grown) and the resolved
`(name, startX, startY)`. -/
def Hub.resolveIdentity (h : Hub) (token : String) (rnd : RandSrc) :
    Hub × String × ℚ × ℚ :=
  if token ≠ "" then
    match lookupIdent h.identities token with
    | some ident => (h, ident.name, ident.x, ident.y)
    | none =>
      let name := generateName rnd.adjIdx rnd.nounIdx
      let sx := spawnX rnd.rx
      let sy := spawnY rnd.ry
      ({ h with identities := (token, ⟨name, sx, sy⟩) :: h.identities }, name, sx, sy)
  else
    (h, generateName rnd.adjIdx rnd.nounIdx, spawnX rnd.rx, spawnY rnd.ry)

/-- `Hub.ServeWS` after a successful upgrade: truncate an over-long
token to "", resolve identity, build the client (fresh `newId`),
register it, send it its `welcome` (with the snapshot excluding itself),
and broadcast `join` excluding it. Returns the hub and the new client
as constructed. -/
def Hub.serveWS (h : Hub) (rawToken : String) (rnd : RandSrc) (newId : String) :
    Hub × Client :=
  let token := if rawToken.length > 64 then "" else rawToken
  let r := h.resolveIdentity token rnd
  let h1 := r.1
  let name := r.2.1
  let sx := r.2.2.1
  let sy := r.2.2.2
  let client : Client :=
    { id := newId, token := token, name := name, x := sx, y := sy,
      lastMove := 0, lastChat := 0, send := [] }
  let h2 := h1.addClient client
  let welcome := ServerMsg.welcome newId name sx sy (h2.getUsers newId)
  let h3 := h2.sendTo newId welcome
  let h4 := h3.broadcast (.join newId name sx sy) newId
  (h4, client)

/-- The deferred teardown of `Client.readPump`: persist the final
position into the identity record (when a token is present and the
record exists), then remove the client from the live set, then broadcast
`leave` to everyone. -/
def Hub.teardownClient (h : Hub) (id : String) : Hub :=
  match h.findClient id with
  | none => h
  | some c =>
    let h1 :=
      if c.token ≠ "" then
        match lookupIdent h.identities c.token with
        | some ident =>
          { h with identities := updateIdent h.identities c.token ⟨ident.name, c.x, c.y⟩ }
        | none => h
      else h
    let h2 := h1.removeClient id
    h2.broadcastAll (.leave id)

/-! ### Client: reconnecting transport (`ws.ts`) -/

/-- `MAX_BACKOFF` from `ws.ts` (30 s, in ms). -/
def MAX_BACKOFF : ℚ := 30000

/-- `BASE_BACKOFF` from `ws.ts` (1 s, in ms). -/
def BASE_BACKOFF : ℚ := 1000

/-- The transport state relevant to the backoff schedule. -/
structure WSState where
  backoff : ℚ
  stopped : Bool
  deriving Repr

/-- `TownSquareWS.scheduleReconnect`: no-op when stopped; otherwise the
delay is `min(backoff * jitter, MAX_BACKOFF)` and the stored backoff
doubles, capped at `MAX_BACKOFF`. The jitter `Math.random()*0.5 + 0.75`
is passed in as a parameter. Returns the new state and the delay. -/
def scheduleReconnect (st : WSState) (jitter : ℚ) : WSState × Option ℚ :=
  if st.stopped then (st, none)
  else ({ st with backoff := min (st.backoff * 2) MAX_BACKOFF },
        some (min (st.backoff * jitter) MAX_BACKOFF))

/-- The `onopen` handler: `this.backoff = BASE_BACKOFF`. -/
def onOpen (st : WSState) : WSState := { st with backoff := BASE_BACKOFF }

/-- `connect()` leaves the state with the base backoff and not stopped. -/
def connectState : WSState := ⟨BASE_BACKOFF, false⟩

/-- The transport state reached after `n` consecutive failed attempts
(each failure runs `scheduleReconnect` once), starting from a fresh
connection; the jitters `j` drawn along the way do not affect it. -/
def wsStateSeq (j : ℕ → ℚ) : ℕ → WSState
  | 0 => connectState
  | n + 1 => (scheduleReconnect (wsStateSeq j n) (j n)).1

/-- The reconnect delay scheduled on the `n`-th consecutive failure. -/
def reconnectDelay (j : ℕ → ℚ) (n : ℕ) : Option ℚ :=
  (scheduleReconnect (wsStateSeq j n) (j n)).2

/-! ### Client: presence orchestrator (`TownSquare.ts`) -/

/-- `MOVE_THROTTLE_MS` from `TownSquare.ts`. -/
def MOVE_THROTTLE_MS : Int := 100

/-- The orchestrator state relevant to click handling. -/
structure TSState where
  localId : Option String
  lastMoveSent : Int
  deriving Repr

/-- `TownSquare.throttledSendMove`: drop the move if less than
`MOVE_THROTTLE_MS` has elapsed since the last sent move, otherwise
record `now` and emit the move to the transport. -/
def throttledSendMove (st : TSState) (now : Int) (x y : ℚ) :
    TSState × Option (ℚ × ℚ) :=
  if now - st.lastMoveSent < MOVE_THROTTLE_MS then (st, none)
  else ({ st with lastMoveSent := now }, some (x, y))

/-- `TownSquare.handleClick`: ignore clicks on interactive regions
(`target.closest(...)`, abstracted as the flag `interactive`) and clicks
before the local id is known; otherwise clamp the normalized click
position into [0,1]², always retarget the local renderer sprite, and
run the send through `throttledSendMove`. Returns the new state, the
renderer `setLocalTarget` call (id and position), and the transport
`sendMove` call, when each happens. -/
def handleClick (st : TSState) (now : Int) (interactive : Bool)
    (clientX clientY innerW innerH : ℚ) :
    TSState × Option (String × ℚ × ℚ) × Option (ℚ × ℚ) :=
  if interactive then (st, none, none)
  else
    match st.localId with
    | none => (st, none, none)
    | some id =>
      let nx := max 0 (min 1 (clientX / innerW))
      let ny := max 0 (min 1 (clientY / innerH))
      let r := throttledSendMove st now nx ny
      (r.1, some (id, nx, ny), r.2)

/-! ### Client: chat-bubble word wrap (`renderer.ts`, `drawBubble`) -/

/-- `BUBBLE_LINE_CHARS` from `renderer.ts`. -/
def BUBBLE_LINE_CHARS : Int := 20

/-- `line ? line + ' ' + word : word` — join a word onto the current
line with a separating space when the line is nonempty. -/
def joinLine (line word : List Char) : List Char :=
  if line = [] then word else line ++ ' ' :: word

/-- The `const space = BUBBLE_LINE_CHARS - (line ? line.length + 1 : 0)`
computation of the hard-break loop. -/
def hbSpace (line : List Char) : Int :=
  BUBBLE_LINE_CHARS - (if line = [] then 0 else (line.length : Int) + 1)

/-- The `while (remaining.length > 0)` hard-break loop of `drawBubble`:
split an over-long word into hyphen-terminated chunks. Returns the lines
pushed by the loop (in order) and the line left open at the end. -/
def hardBreak : List Char → List Char → List (List Char) × List Char
  | line, [] => ([], line)
  | line, r0 :: rrest =>
    if ((r0 :: rrest).length : Int) ≤ hbSpace line then
      ([], joinLine line (r0 :: rrest))
    else if h2 : hbSpace line > 1 then
      let k := (hbSpace line - 1).toNat
      let r := hardBreak [] ((r0 :: rrest).drop k)
      (joinLine line ((r0 :: rrest).take k ++ ['-']) :: r.1, r.2)
    else
      let r := hardBreak [] (r0 :: rrest)
      ((if line = [] then r.1 else line :: r.1), r.2)
termination_by line remaining => 2 * remaining.length + (if line = [] then 0 else 1)
decreasing_by
  · simp only [List.length_drop, List.length_cons]
    simp
    omega
  · have hline : ¬ line = [] := by
      intro hl
      simp [hbSpace, BUBBLE_LINE_CHARS, hl] at h2
    simp [hline]

/-- One iteration of the `for (const word of text.split(' '))` loop of
`drawBubble`, carrying `(lines, line)`. -/
def wrapStep (acc : List (List Char) × List Char) (word : List Char) :
    List (List Char) × List Char :=
  let lines := acc.1
  let line := acc.2
  if (line.length : Int) + word.length + (if line = [] then 0 else 1) ≤ BUBBLE_LINE_CHARS then
    (lines, joinLine line word)
  else if (word.length : Int) ≤ BUBBLE_LINE_CHARS then
    ((if line = [] then lines else lines ++ [line]), word)
  else
    let r := hardBreak line word
    (lines ++ r.1, r.2)

/-- JavaScript `text.split(' ')`: split on every single space character
(so `n` consecutive spaces yield `n+1` items, and the empty string
yields one empty item). -/
def splitOnSpace : List Char → List (List Char)
  | [] => [[]]
  | c :: rest =>
    if c = ' ' then [] :: splitOnSpace rest
    else
      match splitOnSpace rest with
      | [] => [[c]]
      | w :: ws => (c :: w) :: ws

/-- The whole word-wrap of `drawBubble`: fold the words through
`wrapStep` and push the final open line if nonempty. -/
def wrapText (text : List Char) : List (List Char) :=
  let r := (splitOnSpace text).foldl wrapStep ([], [])
  if r.2 = [] then r.1 else r.1 ++ [r.2]

/-- Characters the wrap neither consumes as separators nor inserts as
break hyphens; used to state that wrapping loses no input characters. -/
def keepChar (ch : Char) : Bool := !(ch = ' ' || ch = '-')

/-- A client with a full outbound queue, for broadcast witnesses. -/
def fullClient : Client :=
  { id := "u3", token := "", name := "fuzzy turnip", x := 0, y := 0,
    lastMove := 0, lastChat := 0,
    send := List.replicate sendBufSize (ServerMsg.leave "z") }

/-- A concrete client used by witnesses and counterexamples. -/
def sampleClient : Client :=
  { id := "u1", token := "", name := "sleepy cabbage", x := 0, y := 0,
    lastMove := 0, lastChat := 0, send := [] }

/-- A second concrete client (distinct id) for broadcast witnesses. -/
def sampleClient2 : Client :=
  { id := "u2", token := "", name := "bouncy sprout", x := 1/2, y := 1/2,
    lastMove := 0, lastChat := 0, send := [] }

/-! ## Theorems -/

/-- `clamp01` always lands in [0,1]. -/
theorem clamp01_mem (v : ℚ) : 0 ≤ clamp01 v ∧ clamp01 v ≤ 1 := by
  unfold clamp01
  split_ifs with h1 h2
  · norm_num
  · norm_num
  · constructor <;> linarith

/-- C1: every stored participant position stays in [0,1]×[0,1]: `clamp01`
maps every (finite, hence JSON-decodable) input into [0,1]; the spawn
position `(0.3 + r·0.4, 0.5 + r·0.3)` generated at admission lies in the
range for every random draw `r ∈ [0,1)`; and every accepted `move`
stores the clamped coordinates on the client and carries exactly those
clamped values in the broadcast `moved` event. -/
theorem claim_C1 :
    (∀ v : ℚ, 0 ≤ clamp01 v ∧ clamp01 v ≤ 1) ∧
    (∀ r : ℚ, 0 ≤ r → r < 1 →
      (0 ≤ spawnX r ∧ spawnX r ≤ 1) ∧ (0 ≤ spawnY r ∧ spawnY r ≤ 1)) ∧
    (∀ (c : Client) (now : Int) (mx my : ℚ) (c2 : Client) (msg : ServerMsg),
      handleMove c now (some (mx, my)) = (c2, some msg) →
      c2.x = clamp01 mx ∧ c2.y = clamp01 my ∧
      msg = ServerMsg.moved c.id (clamp01 mx) (clamp01 my) ∧
      0 ≤ c2.x ∧ c2.x ≤ 1 ∧ 0 ≤ c2.y ∧ c2.y ≤ 1) := by
  refine ⟨clamp01_mem, ?_, ?_⟩
  · intro r h0 h1
    unfold spawnX spawnY
    constructor <;> constructor <;> linarith
  · intro c now mx my c2 msg hmv
    unfold handleMove at hmv
    split_ifs at hmv with hth
    · simp at hmv
    · simp only [Prod.mk.injEq, Option.some.injEq] at hmv
      obtain ⟨hc2, hmsg⟩ := hmv
      subst hc2
      subst hmsg
      refine ⟨rfl, rfl, rfl, ?_, ?_, ?_, ?_⟩ <;>
        simp only [clamp01_mem mx, clamp01_mem my] <;>
        first
          | exact (clamp01_mem mx).1
          | exact (clamp01_mem mx).2
          | exact (clamp01_mem my).1
          | exact (clamp01_mem my).2

/-- Witness for C1 at concrete inputs: an out-of-range move `(2, -1)` is
stored clamped. -/
theorem claim_C1_witness :
    (0 ≤ clamp01 (5/2) ∧ clamp01 (5/2) ≤ 1) ∧
    ((0 ≤ spawnX (1/2) ∧ spawnX (1/2) ≤ 1) ∧
      (0 ≤ spawnY (1/2) ∧ spawnY (1/2) ≤ 1)) ∧
    ((0 : ℚ) ≤ 1/2 ∧ (1/2 : ℚ) < 1) ∧
    ({ sampleClient with lastMove := 200, x := clamp01 2, y := clamp01 (-1) }).x
        = clamp01 2 :=
  ⟨claim_C1.1 (5/2),
   claim_C1.2.1 (1/2) (by norm_num) (by norm_num),
   ⟨by norm_num, by norm_num⟩,
   (claim_C1.2.2 sampleClient 200 2 (-1)
      { sampleClient with lastMove := 200, x := clamp01 2, y := clamp01 (-1) }
      (ServerMsg.moved sampleClient.id (clamp01 2) (clamp01 (-1)))
      (by decide)).1⟩

/-- The backoff sequence never reaches the stopped state. -/
theorem wsStateSeq_stopped (j : ℕ → ℚ) (n : ℕ) : (wsStateSeq j n).stopped = false := by
  induction n with
  | zero => rfl
  | succ n ih => simp [wsStateSeq, scheduleReconnect, ih]

/-- Closed form of the stored backoff after `n` consecutive failures. -/
theorem wsStateSeq_backoff (j : ℕ → ℚ) (n : ℕ) :
    (wsStateSeq j n).backoff = min (BASE_BACKOFF * 2 ^ n) MAX_BACKOFF := by
  induction n with
  | zero =>
    show connectState.backoff = _
    norm_num [connectState, BASE_BACKOFF, MAX_BACKOFF]
  | succ n ih =>
    show (scheduleReconnect (wsStateSeq j n) (j n)).1.backoff = _
    rw [scheduleReconnect, if_neg (by simp [wsStateSeq_stopped])]
    simp only [ih]
    rcases le_total (BASE_BACKOFF * 2 ^ n) MAX_BACKOFF with hle | hge
    · rw [min_eq_left hle, pow_succ]
      ring_nf
    · rw [min_eq_right hge, min_eq_right]
      · rw [min_eq_right]
        calc MAX_BACKOFF ≤ BASE_BACKOFF * 2 ^ n := hge
          _ ≤ BASE_BACKOFF * 2 ^ (n + 1) := by
              have h1 : (0 : ℚ) < BASE_BACKOFF := by norm_num [BASE_BACKOFF]
              have h2 : (2 : ℚ) ^ n ≤ 2 ^ (n + 1) := by
                apply pow_le_pow_right (by norm_num)
                omega
              nlinarith
      · norm_num [MAX_BACKOFF]

/-- While the backoff is below the cap it is exactly `1000·2ⁿ`, hence at
most 16000, and one doubling step grows it by a factor of at least 5/3. -/
theorem backoff_growth (j : ℕ → ℚ) (n : ℕ)
    (h : (wsStateSeq j n).backoff < MAX_BACKOFF) :
    0 < (wsStateSeq j n).backoff ∧
    5 * (wsStateSeq j n).backoff ≤ 3 * (wsStateSeq j (n + 1)).backoff := by
  have hp : (0 : ℚ) < 2 ^ n := by positivity
  have hn : (wsStateSeq j n).backoff = BASE_BACKOFF * 2 ^ n := by
    rw [wsStateSeq_backoff] at h ⊢
    rcases le_total (BASE_BACKOFF * 2 ^ n) MAX_BACKOFF with hle | hge
    · rw [min_eq_left hle]
    · rw [min_eq_right hge] at h
      exact absurd h (lt_irrefl _)
  have hlt : BASE_BACKOFF * 2 ^ n < MAX_BACKOFF := by
    rw [wsStateSeq_backoff] at h
    by_contra hge
    push_neg at hge
    rw [min_eq_right hge] at h
    exact lt_irrefl _ h
  have hple : (2 : ℚ) ^ n ≤ 16 := by
    by_contra hgt
    push_neg at hgt
    have h5 : 5 ≤ n := by
      by_contra h5
      push_neg at h5
      interval_cases n <;> norm_num at hgt
    have : (2 : ℚ) ^ 5 ≤ 2 ^ n := pow_le_pow_right (by norm_num) h5
    rw [BASE_BACKOFF, MAX_BACKOFF] at hlt
    norm_num at this
    nlinarith
  constructor
  · rw [hn, BASE_BACKOFF]
    positivity
  · rw [hn, wsStateSeq_backoff]
    rcases le_total (BASE_BACKOFF * 2 ^ (n + 1)) MAX_BACKOFF with hle | hge
    · rw [min_eq_left hle, pow_succ]
      rw [BASE_BACKOFF]
      nlinarith
    · rw [min_eq_right hge, BASE_BACKOFF, MAX_BACKOFF]
      nlinarith

/-- C5: the transport's reconnect delays
`min(backoff · jitter, MAX_BACKOFF)` are non-decreasing across
consecutive failed attempts, for every choice of jitters in
[0.75, 1.25], as long as the backoff has not yet reached the 30 s cap;
and a successful open resets the backoff to `BASE_BACKOFF` (1 s). -/
theorem claim_C5 :
    (∀ st : WSState, (onOpen st).backoff = BASE_BACKOFF) ∧
    (∀ (j : ℕ → ℚ), (∀ i, 3/4 ≤ j i ∧ j i ≤ 5/4) → ∀ n : ℕ,
      (wsStateSeq j n).backoff < MAX_BACKOFF →
      ∃ d1 d2, reconnectDelay j n = some d1 ∧ reconnectDelay j (n + 1) = some d2 ∧
        d1 ≤ d2) := by
  constructor
  · intro st
    rfl
  · intro j hj n hcap
    obtain ⟨hpos, hgrow⟩ := backoff_growth j n hcap
    have hstop : (wsStateSeq j n).stopped = false := wsStateSeq_stopped j n
    have hstop1 : (wsStateSeq j (n + 1)).stopped = false := wsStateSeq_stopped j (n + 1)
    refine ⟨min ((wsStateSeq j n).backoff * j n) MAX_BACKOFF,
            min ((wsStateSeq j (n + 1)).backoff * j (n + 1)) MAX_BACKOFF, ?_, ?_, ?_⟩
    · rw [reconnectDelay, scheduleReconnect, if_neg (by simp [hstop])]
    · rw [reconnectDelay, scheduleReconnect, if_neg (by simp [hstop1])]
    · apply min_le_min _ le_rfl
      have hb1 : 0 < (wsStateSeq j (n + 1)).backoff := by linarith
      calc (wsStateSeq j n).backoff * j n
          ≤ (wsStateSeq j n).backoff * (5/4) := by
            apply mul_le_mul_of_nonneg_left (hj n).2 hpos.le
        _ ≤ (wsStateSeq j (n + 1)).backoff * (3/4) := by linarith
        _ ≤ (wsStateSeq j (n + 1)).backoff * j (n + 1) := by
            apply mul_le_mul_of_nonneg_left (hj (n + 1)).1 hb1.le

/-- Witness for C5 at a concrete jitter sequence (constant jitter 1). -/
theorem claim_C5_witness :
    (onOpen ⟨17000, false⟩).backoff = BASE_BACKOFF ∧
    ∃ d1 d2, reconnectDelay (fun _ => 1) 1 = some d1 ∧
      reconnectDelay (fun _ => 1) 2 = some d2 ∧ d1 ≤ d2 :=
  ⟨claim_C5.1 ⟨17000, false⟩,
   claim_C5.2 (fun _ => 1) (fun _ => by norm_num) 1 (by
     rw [wsStateSeq_backoff]
     norm_num [BASE_BACKOFF, MAX_BACKOFF])⟩

/-- C10: a pointer click on a non-interactive region, once the local id
is known, always retargets the local renderer sprite to the clamped
click position; the move is handed to the transport exactly when at
least `MOVE_THROTTLE_MS` has elapsed since the last sent move, and a
click inside the throttle window leaves the orchestrator state
unchanged (the position is discarded, not queued), so the renderer
target and the transmitted position can diverge. -/
theorem claim_C10 (st : TSState) (id : String) (now : Int)
    (clientX clientY innerW innerH : ℚ) (hid : st.localId = some id) :
    (handleClick st now false clientX clientY innerW innerH).2.1 =
        some (id, max 0 (min 1 (clientX / innerW)), max 0 (min 1 (clientY / innerH))) ∧
    (0 ≤ max 0 (min 1 (clientX / innerW)) ∧ max 0 (min 1 (clientX / innerW)) ≤ 1) ∧
    (now - st.lastMoveSent < MOVE_THROTTLE_MS →
      (handleClick st now false clientX clientY innerW innerH).2.2 = none ∧
      (handleClick st now false clientX clientY innerW innerH).1 = st) ∧
    (¬ now - st.lastMoveSent < MOVE_THROTTLE_MS →
      (handleClick st now false clientX clientY innerW innerH).2.2 =
          some (max 0 (min 1 (clientX / innerW)), max 0 (min 1 (clientY / innerH))) ∧
      (handleClick st now false clientX clientY innerW innerH).1 =
          { st with lastMoveSent := now }) := by
  obtain ⟨lid, last⟩ := st
  replace hid : lid = some id := hid
  subst hid
  have hb1 : (0 : ℚ) ≤ max 0 (min 1 (clientX / innerW)) := le_max_left _ _
  have hb2 : max 0 (min 1 (clientX / innerW)) ≤ 1 :=
    max_le (by norm_num) (min_le_left _ _)
  by_cases hth : now - last < MOVE_THROTTLE_MS
  · refine ⟨?_, ⟨hb1, hb2⟩, ?_, ?_⟩
    · simp [handleClick, throttledSendMove, hth]
    · intro _
      constructor <;> simp [handleClick, throttledSendMove, hth]
    · intro h2
      exact absurd hth h2
  · refine ⟨?_, ⟨hb1, hb2⟩, ?_, ?_⟩
    · simp [handleClick, throttledSendMove, hth]
    · intro h2
      exact absurd h2 hth
    · intro _
      constructor <;> simp [handleClick, throttledSendMove, hth]

/-- Witness for C10: a click at the window centre with the id known. -/
theorem claim_C10_witness :
    (handleClick ⟨some "u1", 0⟩ 500 false 400 300 800 600).2.1 =
        some ("u1", max 0 (min 1 ((400 : ℚ) / 800)), max 0 (min 1 ((300 : ℚ) / 600))) ∧
    ¬ (500 : Int) - 0 < MOVE_THROTTLE_MS ∧
    (handleClick ⟨some "u1", 0⟩ 500 false 400 300 800 600).2.2 =
        some (max 0 (min 1 ((400 : ℚ) / 800)), max 0 (min 1 ((300 : ℚ) / 600))) :=
  ⟨(claim_C10 ⟨some "u1", 0⟩ "u1" 500 400 300 800 600 rfl).1,
   by norm_num [MOVE_THROTTLE_MS],
   ((claim_C10 ⟨some "u1", 0⟩ "u1" 500 400 300 800 600 rfl).2.2.2
      (by norm_num [MOVE_THROTTLE_MS])).1⟩

/-- Counterexample to C2 as stated: a malformed `move` frame arriving
200 ms after the last move (well past the 100 ms throttle) is neither
rejected in the claim's sense (the throttle timestamp DOES change,
because the source sets `c.lastMove = now` before the inner unmarshal)
nor processed (no position change, no broadcast) — refuting both
directions of the claimed biconditional and the claim that a malformed
move frame leaves the throttle timestamp unchanged. -/
theorem claim_C2_counterexample :
    ¬ (200 : Int) - sampleClient.lastMove < moveThrottle ∧
    (handleMove sampleClient 200 none).2 = none ∧
    (handleMove sampleClient 200 none).1.x = sampleClient.x ∧
    (handleMove sampleClient 200 none).1.lastMove ≠ sampleClient.lastMove := by
  refine ⟨by decide, ?_, ?_, by decide⟩ <;> decide

/-- C2 (amended): a `move` frame is skipped untouched (no position
change, no broadcast, no timestamp change) iff less than 100 ms has
elapsed since the last move frame that passed the throttle; a frame that
passes the throttle always updates the throttle timestamp, and then — if
it parses — stores the clamped position and broadcasts one `moved` event
excluding the sender, while a malformed frame that passes the throttle
updates the timestamp but changes nothing else and broadcasts nothing. -/
theorem claim_C2 (c : Client) (now : Int) (p : Option (ℚ × ℚ)) :
    (now - c.lastMove < moveThrottle → handleMove c now p = (c, none)) ∧
    (¬ now - c.lastMove < moveThrottle →
      (handleMove c now p).1.lastMove = now ∧
      (p = none → handleMove c now p = ({ c with lastMove := now }, none)) ∧
      (∀ mx my, p = some (mx, my) →
        handleMove c now p =
          ({ c with lastMove := now, x := clamp01 mx, y := clamp01 my },
           some (ServerMsg.moved c.id (clamp01 mx) (clamp01 my))))) ∧
    (∀ (h : Hub) (msg : ServerMsg) (i : ℕ) (d : Client),
      h.clients[i]? = some d →
      ((h.broadcast msg c.id).clients[i]? = some d ∨ d.id ≠ c.id) ∧
      (d.id = c.id → (h.broadcast msg c.id).clients[i]? = some d)) := by
  refine ⟨?_, ?_, ?_⟩
  · intro hth
    unfold handleMove
    rw [if_pos hth]
  · intro hth
    unfold handleMove
    rw [if_neg hth]
    refine ⟨?_, ?_, ?_⟩
    · cases p with
      | none => rfl
      | some q =>
        obtain ⟨mx, my⟩ := q
        rfl
    · intro hp
      subst hp
      rfl
    · intro mx my hp
      subst hp
      rfl
  · intro h msg i d hd
    have hbr : (h.broadcast msg c.id).clients[i]? =
        some (if d.id = c.id then d else enqueue d msg) := by
      unfold Hub.broadcast
      simp only [List.getElem?_map, hd]
      rfl
    by_cases hdc : d.id = c.id
    · rw [hbr, if_pos hdc]
      exact ⟨Or.inl rfl, fun _ => rfl⟩
    · exact ⟨Or.inr hdc, fun hcontra => absurd hcontra hdc⟩

/-- Witness for the amended C2: an in-window move is dropped whole, an
out-of-window malformed move only bumps the timestamp, and a `moved`
broadcast skips the sender's own queue. -/
theorem claim_C2_witness :
    (50 : Int) - sampleClient.lastMove < moveThrottle ∧
    handleMove sampleClient 50 (some (2, -1)) = (sampleClient, none) ∧
    (handleMove sampleClient 200 none).1.lastMove = 200 ∧
    (((Hub.mk [sampleClient] []).broadcast (ServerMsg.leave "x")
        sampleClient.id).clients[0]? = some sampleClient) :=
  ⟨by decide,
   (claim_C2 sampleClient 50 (some (2, -1))).1 (by decide),
   ((claim_C2 sampleClient 200 none).2.1 (by decide)).1,
   ((claim_C2 sampleClient 200 none).2.2 (Hub.mk [sampleClient] [])
      (ServerMsg.leave "x") 0 sampleClient (by decide)).2 rfl⟩

/-- A chat frame inside the 1 s window is a complete no-op. -/
theorem handleChat_throttled (c : Client) (now : Int) (p : Option (List Char))
    (h : now - c.lastChat < chatThrottle) : handleChat c now p = (c, none) := by
  unfold handleChat
  rw [if_pos h]

/-- A chat that produced a broadcast has its throttle timestamp set to
the accepting instant. -/
theorem handleChat_accepted_lastChat (c : Client) (now : Int)
    (p : Option (List Char)) (h : (handleChat c now p).2 ≠ none) :
    (handleChat c now p).1.lastChat = now := by
  unfold handleChat at h ⊢
  split_ifs at h ⊢ with h1
  · exact absurd rfl h
  · cases p with
    | none => exact absurd rfl h
    | some raw =>
      simp only at h ⊢
      split_ifs at h ⊢ with h2 h3
      · exact absurd rfl h
      · rfl
      · rfl

/-- C3: per-participant chat behaviour. (1) Two chat frames less than
1 s apart yield at most one `chatted` broadcast. (2) An accepted chat
whose trimmed text exceeds 140 units is truncated to exactly the first
140 units. (3) A chat that is empty after trimming is dropped without a
broadcast and without touching the client (in particular the chat
throttle timestamp is unchanged). -/
theorem claim_C3 (c : Client) :
    (∀ (t1 t2 : Int) (p1 p2 : Option (List Char)), t2 - t1 < chatThrottle →
      (handleChat c t1 p1).2 = none ∨
        (handleChat (handleChat c t1 p1).1 t2 p2).2 = none) ∧
    (∀ (now : Int) (raw : List Char), ¬ now - c.lastChat < chatThrottle →
      trimSpace raw ≠ [] → (trimSpace raw).length > maxChatLen →
      (handleChat c now (some raw)).2 =
          some (ServerMsg.chatted c.id ((trimSpace raw).take maxChatLen)) ∧
      (∀ txt, (handleChat c now (some raw)).2 = some (ServerMsg.chatted c.id txt) →
        txt.length = maxChatLen)) ∧
    (∀ (now : Int) (raw : List Char), trimSpace raw = [] →
      handleChat c now (some raw) = (c, none)) := by
  refine ⟨?_, ?_, ?_⟩
  · intro t1 t2 p1 p2 hlt
    by_cases h1 : (handleChat c t1 p1).2 = none
    · exact Or.inl h1
    · right
      have hts : (handleChat c t1 p1).1.lastChat = t1 :=
        handleChat_accepted_lastChat c t1 p1 h1
      have h2 := handleChat_throttled (handleChat c t1 p1).1 t2 p2
        (by rw [hts]; exact hlt)
      rw [h2]
  · intro now raw hth hne hlen
    constructor
    · unfold handleChat
      rw [if_neg hth]
      simp only [if_neg hne, if_pos hlen]
    · intro txt htxt
      unfold handleChat at htxt
      rw [if_neg hth] at htxt
      simp only [if_neg hne, if_pos hlen, Option.some.injEq,
        ServerMsg.chatted.injEq] at htxt
      rw [← htxt.2, List.length_take]
      omega
  · intro now raw hempty
    unfold handleChat
    split_ifs with h1
    · rfl
    · simp [hempty]

set_option maxRecDepth 10000 in
/-- Witness for C3: a second chat 500 ms after an accepted one is
dropped; a 150-unit text is cut to 140; whitespace-only text is a no-op. -/
theorem claim_C3_witness :
    ((handleChat sampleClient 2000 (some ('h' :: 'i' :: []))).2 = none ∨
      (handleChat (handleChat sampleClient 2000 (some ('h' :: 'i' :: []))).1
        2500 (some ('y' :: 'o' :: []))).2 = none) ∧
    (∀ txt, (handleChat sampleClient 2000 (some (List.replicate 150 'x'))).2 =
        some (ServerMsg.chatted sampleClient.id txt) → txt.length = maxChatLen) ∧
    handleChat sampleClient 2000 (some (' ' :: ' ' :: [])) = (sampleClient, none) :=
  ⟨(claim_C3 sampleClient).1 2000 2500 (some ('h' :: 'i' :: []))
      (some ('y' :: 'o' :: [])) (by decide),
   ((claim_C3 sampleClient).2.1 2000 (List.replicate 150 'x') (by decide)
      (by decide) (by decide)).2,
   (claim_C3 sampleClient).2.2 2000 (' ' :: ' ' :: []) (by decide)⟩

/-- Per-index characterisation of `Hub.broadcast`. -/
theorem broadcast_getElem (h : Hub) (m : ServerMsg) (ex : String) (i : ℕ) :
    (h.broadcast m ex).clients[i]? =
      (h.clients[i]?).map (fun c => if c.id = ex then c else enqueue c m) := by
  unfold Hub.broadcast
  simp [List.getElem?_map]

/-- C6: broadcasting with an exclude id enqueues the payload exactly once
to every live client other than the excluded one whose queue has room; a
client with a full queue is left untouched (the one message is dropped
for it alone — the per-index statement makes recipients independent, so
one full queue never affects another recipient); the excluded client is
untouched; queues never grow past the capacity bound (the enqueue never
waits — it is total and drops instead of blocking); and the client set
itself is unchanged. -/
theorem claim_C6 (h : Hub) (m : ServerMsg) (ex : String) (i : ℕ) (c : Client)
    (hc : h.clients[i]? = some c) :
    ∃ c2, (h.broadcast m ex).clients[i]? = some c2 ∧
      (c.id ≠ ex → c.send.length < sendBufSize →
        c2.send = c.send ++ [m] ∧ c2.send.count m = c.send.count m + 1) ∧
      (c.id ≠ ex → ¬ c.send.length < sendBufSize → c2 = c) ∧
      (c.id = ex → c2 = c) ∧
      c2.send.length ≤ max c.send.length sendBufSize ∧
      (h.broadcast m ex).clients.length = h.clients.length := by
  refine ⟨if c.id = ex then c else enqueue c m, ?_, ?_, ?_, ?_, ?_, ?_⟩
  · rw [broadcast_getElem, hc]
    rfl
  · intro hne hroom
    rw [if_neg hne]
    unfold enqueue
    rw [if_pos hroom]
    refine ⟨rfl, ?_⟩
    simp [List.count_append]
  · intro hne hfull
    rw [if_neg hne]
    unfold enqueue
    rw [if_neg hfull]
  · intro heq
    rw [if_pos heq]
  · unfold enqueue
    split_ifs with heq hroom
    · exact le_max_left _ _
    · simp only [List.length_append, List.length_cons, List.length_nil]
      exact le_trans (by omega) (le_max_right _ _)
    · exact le_max_left _ _
  · unfold Hub.broadcast
    simp

/-- Witness for C6: a two-client hub where the second client's queue is
full — the first still receives the payload, the second drops it. -/
theorem claim_C6_witness :
    (∃ c2, ((Hub.mk [sampleClient, fullClient] []).broadcast
        (ServerMsg.leave "x") "u0").clients[0]? = some c2 ∧
      c2.send = sampleClient.send ++ [ServerMsg.leave "x"]) ∧
    (∃ c3, ((Hub.mk [sampleClient, fullClient] []).broadcast
        (ServerMsg.leave "x") "u0").clients[1]? = some c3 ∧ c3 = fullClient) := by
  constructor
  · obtain ⟨c2, h1, h2, -⟩ := claim_C6 (Hub.mk [sampleClient, fullClient] [])
      (ServerMsg.leave "x") "u0" 0 sampleClient (by decide)
    exact ⟨c2, h1, (h2 (by decide) (by decide)).1⟩
  · obtain ⟨c3, h1, -, h3, -⟩ := claim_C6 (Hub.mk [sampleClient, fullClient] [])
      (ServerMsg.leave "x") "u0" 1 fullClient (by decide)
    exact ⟨c3, h1, h3 (by decide) (by decide)⟩

/-- Generated participant ids `"u<nanos>"` are never the empty string
(the broadcast-all exclude sentinel). -/
theorem genId_ne_empty (n : ℕ) : genId n ≠ "" := by
  intro h
  have hl := congrArg String.length h
  rw [genId, String.length_append] at hl
  have h1 : "u".length = 1 := rfl
  have h0 : String.length "" = 0 := rfl
  omega

/-- A successful `findClient` returns a member with the looked-up id. -/
theorem findClient_mem (h : Hub) (idStr : String) (c : Client)
    (hf : h.findClient idStr = some c) : c ∈ h.clients ∧ c.id = idStr := by
  unfold Hub.findClient at hf
  refine ⟨List.mem_of_find?_eq_some hf, ?_⟩
  have := List.find?_some hf
  simpa using this

/-- The chat handler never changes a client's id, token or name. -/
theorem handleChat_fields (c : Client) (now : Int) (p : Option (List Char)) :
    (handleChat c now p).1.id = c.id ∧ (handleChat c now p).1.token = c.token ∧
    (handleChat c now p).1.name = c.name := by
  unfold handleChat
  split_ifs with h1
  · exact ⟨rfl, rfl, rfl⟩
  · cases p with
    | none => exact ⟨rfl, rfl, rfl⟩
    | some raw =>
      simp only
      split_ifs with h2 h3 <;> exact ⟨rfl, rfl, rfl⟩

/-- The move handler never changes a client's id, token or name. -/
theorem handleMove_fields (c : Client) (now : Int) (p : Option (ℚ × ℚ)) :
    (handleMove c now p).1.id = c.id ∧ (handleMove c now p).1.token = c.token ∧
    (handleMove c now p).1.name = c.name := by
  unfold handleMove
  split_ifs with h1
  · exact ⟨rfl, rfl, rfl⟩
  · cases p with
    | none => exact ⟨rfl, rfl, rfl⟩
    | some q =>
      obtain ⟨mx, my⟩ := q
      exact ⟨rfl, rfl, rfl⟩

/-- Reduction of `Hub.handleFrame` on a located client, `chat` case. -/
theorem handleFrame_chat_eq (h : Hub) (idStr : String) (now : Int)
    (p : Option (List Char)) (c : Client) (hfind : h.findClient idStr = some c) :
    h.handleFrame idStr now (.chat p) =
      (match (handleChat c now p).2 with
       | some m => (h.setClient (handleChat c now p).1).broadcastAll m
       | none => h.setClient (handleChat c now p).1) := by
  unfold Hub.handleFrame
  rw [hfind]

/-- Reduction of `Hub.handleFrame` on a located client, `move` case. -/
theorem handleFrame_move_eq (h : Hub) (idStr : String) (now : Int)
    (p : Option (ℚ × ℚ)) (c : Client) (hfind : h.findClient idStr = some c) :
    h.handleFrame idStr now (.move p) =
      (match (handleMove c now p).2 with
       | some m => (h.setClient (handleMove c now p).1).broadcast m c.id
       | none => h.setClient (handleMove c now p).1) := by
  unfold Hub.handleFrame
  rw [hfind]

/-- C8: an accepted chat is fanned out with `broadcastAll`, and since
every generated id is nonempty the empty exclude id matches nobody: the
recipient set of the `chatted` broadcast is the whole live client set,
the sender's own entry included (each entry receives it through the
capacity-bounded `enqueue`). -/
theorem claim_C8 (h : Hub) (idStr : String) (now : Int) (raw : List Char)
    (c c2 : Client) (msg : ServerMsg)
    (hids : ∀ d ∈ h.clients, ∃ n, d.id = genId n)
    (hfind : h.findClient idStr = some c)
    (hchat : handleChat c now (some raw) = (c2, some msg)) :
    h.handleFrame idStr now (.chat (some raw)) = (h.setClient c2).broadcastAll msg ∧
    (∀ (i : ℕ) (d : Client), (h.setClient c2).clients[i]? = some d →
      d.id ≠ "" ∧
      ((h.setClient c2).broadcastAll msg).clients[i]? = some (enqueue d msg)) := by
  have hc2id : c2.id = c.id := by
    have := (handleChat_fields c now (some raw)).1
    rw [hchat] at this
    exact this
  constructor
  · rw [handleFrame_chat_eq h idStr now (some raw) c hfind, hchat]
  · intro i d hd
    have hdid : ∃ n, d.id = genId n := by
      have hmem : d ∈ (h.setClient c2).clients := by
        have h2 := List.getElem?_eq_some_iff.mp hd
        obtain ⟨hlt, hget⟩ := h2
        exact hget ▸ List.getElem_mem hlt
      unfold Hub.setClient at hmem
      simp only [List.mem_map] at hmem
      obtain ⟨e, hemem, hed⟩ := hmem
      by_cases hcase : e.id = c2.id
      · rw [if_pos hcase] at hed
        obtain ⟨hcmem, -⟩ := findClient_mem h idStr c hfind
        obtain ⟨n, hn⟩ := hids c hcmem
        exact ⟨n, by rw [← hed, hc2id, hn]⟩
      · rw [if_neg hcase] at hed
        obtain ⟨n, hn⟩ := hids e hemem
        exact ⟨n, by rw [← hed, hn]⟩
    obtain ⟨n, hn⟩ := hdid
    have hne : d.id ≠ "" := by
      rw [hn]
      exact genId_ne_empty n
    refine ⟨hne, ?_⟩
    unfold Hub.broadcastAll
    rw [broadcast_getElem, hd]
    show some (if d.id = "" then d else enqueue d msg) = some (enqueue d msg)
    rw [if_neg hne]

/-- Witness for C8: in a two-client hub, an accepted chat from `u1` is
enqueued to both entries, the sender's included. -/
theorem claim_C8_witness :
    (Hub.mk [sampleClient, sampleClient2] []).handleFrame "u1" 2000
        (Frame.chat (some ('h' :: 'i' :: []))) =
      ((Hub.mk [sampleClient, sampleClient2] []).setClient
          { sampleClient with lastChat := 2000 }).broadcastAll
        (ServerMsg.chatted "u1" ('h' :: 'i' :: [])) ∧
    (((Hub.mk [sampleClient, sampleClient2] []).setClient
          { sampleClient with lastChat := 2000 }).broadcastAll
        (ServerMsg.chatted "u1" ('h' :: 'i' :: []))).clients[0]? =
      some (enqueue { sampleClient with lastChat := 2000 }
        (ServerMsg.chatted "u1" ('h' :: 'i' :: []))) := by
  have hids : ∀ d ∈ (Hub.mk [sampleClient, sampleClient2] []).clients,
      ∃ n, d.id = genId n := by
    intro d hd
    simp only [List.mem_cons, List.not_mem_nil, or_false] at hd
    rcases hd with h1 | h2
    · exact ⟨1, by rw [h1]; rfl⟩
    · exact ⟨2, by rw [h2]; rfl⟩
  have hmain := claim_C8 (Hub.mk [sampleClient, sampleClient2] []) "u1" 2000
    ('h' :: 'i' :: []) sampleClient { sampleClient with lastChat := 2000 }
    (ServerMsg.chatted "u1" ('h' :: 'i' :: [])) hids (by decide) (by decide)
  refine ⟨hmain.1, ?_⟩
  exact (hmain.2 0 { sampleClient with lastChat := 2000 } (by decide)).2

/-- Identity resolution never touches the live client set. -/
theorem resolveIdentity_clients (h : Hub) (t : String) (rnd : RandSrc) :
    (h.resolveIdentity t rnd).1.clients = h.clients := by
  unfold Hub.resolveIdentity
  split_ifs with h1
  · cases hlook : lookupIdent h.identities t with
    | none => rfl
    | some ident => rfl
  · rfl

/-- Identity resolution for an unseen nonempty token creates the record
with a generated name and randomized spawn position. -/
theorem resolveIdentity_new (h : Hub) (t : String) (rnd : RandSrc)
    (ht : t ≠ "") (hlook : lookupIdent h.identities t = none) :
    h.resolveIdentity t rnd =
      ({ h with identities := (t, ⟨generateName rnd.adjIdx rnd.nounIdx,
          spawnX rnd.rx, spawnY rnd.ry⟩) :: h.identities },
       generateName rnd.adjIdx rnd.nounIdx, spawnX rnd.rx, spawnY rnd.ry) := by
  unfold Hub.resolveIdentity
  rw [if_pos ht, hlook]

/-- Identity resolution for a remembered token returns its stored
name and position and leaves the hub unchanged. -/
theorem resolveIdentity_found (h : Hub) (t : String) (rnd : RandSrc)
    (ident : Identity) (ht : t ≠ "")
    (hlook : lookupIdent h.identities t = some ident) :
    h.resolveIdentity t rnd = (h, ident.name, ident.x, ident.y) := by
  unfold Hub.resolveIdentity
  rw [if_pos ht, hlook]

/-- The client `ServeWS` constructs, by definitional unfolding. -/
theorem serveWS_client_eq (h : Hub) (raw : String) (rnd : RandSrc) (newId : String) :
    (h.serveWS raw rnd newId).2 =
      { id := newId, token := if raw.length > 64 then "" else raw,
        name := (h.resolveIdentity (if raw.length > 64 then "" else raw) rnd).2.1,
        x := (h.resolveIdentity (if raw.length > 64 then "" else raw) rnd).2.2.1,
        y := (h.resolveIdentity (if raw.length > 64 then "" else raw) rnd).2.2.2,
        lastMove := 0, lastChat := 0, send := [] } := rfl

/-- Admission only touches the identity store through `resolveIdentity`. -/
theorem serveWS_identities (h : Hub) (raw : String) (rnd : RandSrc) (newId : String) :
    (h.serveWS raw rnd newId).1.identities =
      (h.resolveIdentity (if raw.length > 64 then "" else raw) rnd).1.identities := rfl

/-- Full characterisation of the client list after admission: every
prior client got exactly the `join` (capacity permitting), and the
newcomer sits at the end holding exactly its `welcome` with the
snapshot of the prior clients. -/
theorem serveWS_clients (h : Hub) (raw : String) (rnd : RandSrc) (newId : String)
    (hfresh : ∀ c ∈ h.clients, c.id ≠ newId) :
    (h.serveWS raw rnd newId).1.clients =
      h.clients.map (fun c => enqueue c (ServerMsg.join newId
        (h.serveWS raw rnd newId).2.name (h.serveWS raw rnd newId).2.x
        (h.serveWS raw rnd newId).2.y)) ++
      [{ (h.serveWS raw rnd newId).2 with
         send := [ServerMsg.welcome newId (h.serveWS raw rnd newId).2.name
           (h.serveWS raw rnd newId).2.x (h.serveWS raw rnd newId).2.y
           (h.clients.map (fun c => ⟨c.id, c.name, c.x, c.y⟩))] }] := by
  have hres := resolveIdentity_clients h (if raw.length > 64 then "" else raw) rnd
  unfold Hub.serveWS Hub.addClient Hub.sendTo Hub.broadcast Hub.getUsers
  simp only [hres, List.map_append, List.filter_append, List.filter_cons,
    List.filter_nil, List.map_cons, List.map_nil, not_true, decide_True,
    decide_False, Bool.false_eq_true, if_false, if_true, List.append_nil,
    List.nil_append, List.map_map]
  have hfilter : List.filter (fun c => decide ¬c.id = newId) h.clients = h.clients :=
    List.filter_eq_self.mpr (fun a ha => by simpa using hfresh a ha)
  rw [hfilter]
  congr 1
  apply List.map_congr_left
  intro a ha
  have hne : ¬ a.id = newId := hfresh a ha
  simp [Function.comp, hne]

/-- C7: on admission the newcomer (fresh id) receives exactly one
message — its `welcome`, carrying its own id, resolved name and
position, and a users snapshot listing every prior live participant
(and so empty when it is alone) — while every prior participant gets
exactly the `join` event enqueued (capacity permitting); the `join` is
never enqueued to the newcomer, whose queue holds only the welcome. -/
theorem claim_C7 (h : Hub) (raw : String) (rnd : RandSrc) (newId : String)
    (hfresh : ∀ c ∈ h.clients, c.id ≠ newId) :
    (h.serveWS raw rnd newId).2.id = newId ∧
    (h.serveWS raw rnd newId).1.clients.length = h.clients.length + 1 ∧
    ((h.serveWS raw rnd newId).1.clients[h.clients.length]? =
      some { (h.serveWS raw rnd newId).2 with
        send := [ServerMsg.welcome newId (h.serveWS raw rnd newId).2.name
          (h.serveWS raw rnd newId).2.x (h.serveWS raw rnd newId).2.y
          (h.clients.map (fun c => ⟨c.id, c.name, c.x, c.y⟩))] }) ∧
    (h.clients = [] →
      (h.clients.map (fun c => (⟨c.id, c.name, c.x, c.y⟩ : UserInfo))) = []) ∧
    (∀ (i : ℕ) (c : Client), h.clients[i]? = some c →
      (h.serveWS raw rnd newId).1.clients[i]? =
        some (enqueue c (ServerMsg.join newId (h.serveWS raw rnd newId).2.name
          (h.serveWS raw rnd newId).2.x (h.serveWS raw rnd newId).2.y))) := by
  refine ⟨rfl, ?_, ?_, fun he => by rw [he]; rfl, ?_⟩
  · rw [serveWS_clients h raw rnd newId hfresh]
    simp
  · rw [serveWS_clients h raw rnd newId hfresh]
    rw [List.getElem?_append_right (by simp)]
    simp
  · intro i c hc
    have hi : i < h.clients.length := by
      obtain ⟨hlt, -⟩ := List.getElem?_eq_some_iff.mp hc
      exact hlt
    rw [serveWS_clients h raw rnd newId hfresh]
    rw [List.getElem?_append_left (by simpa using hi)]
    simp [List.getElem?_map, hc]

/-- Witness for C7: admitting `u9` into a one-client hub. -/
theorem claim_C7_witness :
    ((Hub.mk [sampleClient] []).serveWS "tok" ⟨0, 0, 0, 0⟩ "u9").1.clients.length = 2 ∧
    (((Hub.mk [sampleClient] []).serveWS "tok" ⟨0, 0, 0, 0⟩ "u9").1.clients[0]? =
      some (enqueue sampleClient (ServerMsg.join "u9"
        (((Hub.mk [sampleClient] []).serveWS "tok" ⟨0, 0, 0, 0⟩ "u9")).2.name
        (((Hub.mk [sampleClient] []).serveWS "tok" ⟨0, 0, 0, 0⟩ "u9")).2.x
        (((Hub.mk [sampleClient] []).serveWS "tok" ⟨0, 0, 0, 0⟩ "u9")).2.y))) :=
  ⟨(claim_C7 (Hub.mk [sampleClient] []) "tok" ⟨0, 0, 0, 0⟩ "u9"
      (by decide)).2.1,
   (claim_C7 (Hub.mk [sampleClient] []) "tok" ⟨0, 0, 0, 0⟩ "u9"
      (by decide)).2.2.2.2 0 sampleClient (by decide)⟩

theorem find?_map_eq (l : List Client) (g : Client → Client) (p : Client → Bool)
    (hp : ∀ d, p (g d) = p d) :
    (l.map g).find? p = (l.find? p).map g := by
  induction l with
  | nil => rfl
  | cons a t ih =>
    by_cases hpa : p a = true
    · rw [List.map_cons, List.find?_cons_of_pos _ (by rw [hp]; exact hpa),
        List.find?_cons_of_pos _ hpa]
      rfl
    · rw [List.map_cons, List.find?_cons_of_neg _ (by rw [hp]; simpa using hpa),
        List.find?_cons_of_neg _ (by simpa using hpa), ih]

/-- `enqueue` only changes the queue, never the id. -/
theorem enqueue_id (c : Client) (m : ServerMsg) : (enqueue c m).id = c.id := by
  unfold enqueue
  split_ifs <;> rfl

/-- `enqueue` never changes the token. -/
theorem enqueue_token (c : Client) (m : ServerMsg) : (enqueue c m).token = c.token := by
  unfold enqueue
  split_ifs <;> rfl

/-- `enqueue` never changes the name. -/
theorem enqueue_name (c : Client) (m : ServerMsg) : (enqueue c m).name = c.name := by
  unfold enqueue
  split_ifs <;> rfl

/-- Writing back a client with the found id makes it the one found. -/
theorem findClient_setClient (h : Hub) (idStr : String) (c c2 : Client)
    (hf : h.findClient idStr = some c) (hid : c2.id = c.id) :
    (h.setClient c2).findClient idStr = some c2 := by
  have hcid : c.id = idStr := (findClient_mem h idStr c hf).2
  unfold Hub.findClient Hub.setClient
  unfold Hub.findClient at hf
  rw [find?_map_eq _ _ _ ?hp]
  · rw [hf]
    show some (if c.id = c2.id then c2 else c) = some c2
    rw [if_pos (by rw [hid])]
  case hp =>
    intro d
    by_cases hd : d.id = c2.id
    · simp [hd, hid, hcid]
    · simp [hd]

/-- Lookup after a broadcast finds the same client, possibly enqueued. -/
theorem findClient_broadcast (h : Hub) (idStr : String) (m : ServerMsg) (ex : String) :
    (h.broadcast m ex).findClient idStr =
      (h.findClient idStr).map (fun c => if c.id = ex then c else enqueue c m) := by
  unfold Hub.findClient Hub.broadcast
  rw [find?_map_eq]
  intro d
  have hgid : (if d.id = ex then d else enqueue d m).id = d.id := by
    split_ifs with h1
    · rfl
    · exact enqueue_id d m
  simp [hgid]

/-- Frames of unknown type are ignored by the reader switch. -/
theorem handleFrame_other_eq (h : Hub) (idStr : String) (now : Int) :
    h.handleFrame idStr now .other = h := by
  unfold Hub.handleFrame
  cases hfind : h.findClient idStr with
  | none => rfl
  | some c => rfl

/-- A frame from an unknown client id changes nothing. -/
theorem handleFrame_none_eq (h : Hub) (idStr : String) (now : Int) (f : Frame)
    (hfind : h.findClient idStr = none) :
    h.handleFrame idStr now f = h := by
  unfold Hub.handleFrame
  rw [hfind]

/-- Processing an inbound frame never touches the identity store. -/
theorem handleFrame_identities (h : Hub) (idStr : String) (now : Int) (f : Frame) :
    (h.handleFrame idStr now f).identities = h.identities := by
  cases hfind : h.findClient idStr with
  | none => rw [handleFrame_none_eq h idStr now f hfind]
  | some c =>
    cases f with
    | move p =>
      rw [handleFrame_move_eq h idStr now p c hfind]
      cases hm : (handleMove c now p).2 with
      | none => rfl
      | some m => rfl
    | chat p =>
      rw [handleFrame_chat_eq h idStr now p c hfind]
      cases hm : (handleChat c now p).2 with
      | none => rfl
      | some m => rfl
    | other => rw [handleFrame_other_eq]

/-- Processing a frame keeps the client present with id, token and
name unchanged. -/
theorem handleFrame_inv (h : Hub) (idStr : String) (now : Int) (f : Frame)
    (c : Client) (hf : h.findClient idStr = some c) :
    ∃ c2, (h.handleFrame idStr now f).findClient idStr = some c2 ∧
      c2.id = c.id ∧ c2.token = c.token ∧ c2.name = c.name := by
  cases f with
  | move p =>
    rw [handleFrame_move_eq h idStr now p c hf]
    obtain ⟨hmid, hmtok, hmname⟩ := handleMove_fields c now p
    cases hm : (handleMove c now p).2 with
    | none =>
      exact ⟨(handleMove c now p).1,
        findClient_setClient h idStr c (handleMove c now p).1 hf hmid,
        hmid, hmtok, hmname⟩
    | some m =>
      refine ⟨(handleMove c now p).1, ?_, hmid, hmtok, hmname⟩
      rw [findClient_broadcast,
        findClient_setClient h idStr c (handleMove c now p).1 hf hmid]
      show some (if (handleMove c now p).1.id = c.id then _ else _) = _
      rw [if_pos hmid]
  | chat p =>
    rw [handleFrame_chat_eq h idStr now p c hf]
    obtain ⟨hmid, hmtok, hmname⟩ := handleChat_fields c now p
    cases hm : (handleChat c now p).2 with
    | none =>
      exact ⟨(handleChat c now p).1,
        findClient_setClient h idStr c (handleChat c now p).1 hf hmid,
        hmid, hmtok, hmname⟩
    | some m =>
      refine ⟨(if (handleChat c now p).1.id = "" then (handleChat c now p).1
          else enqueue (handleChat c now p).1 m), ?_, ?_, ?_, ?_⟩
      · unfold Hub.broadcastAll
        rw [findClient_broadcast,
          findClient_setClient h idStr c (handleChat c now p).1 hf hmid]
        rfl
      · split_ifs with h1
        · exact hmid
        · rw [enqueue_id]
          exact hmid
      · split_ifs with h1
        · exact hmtok
        · rw [enqueue_token]
          exact hmtok
      · split_ifs with h1
        · exact hmname
        · rw [enqueue_name]
          exact hmname
  | other =>
    refine ⟨c, ?_, rfl, rfl, rfl⟩
    rw [handleFrame_other_eq, hf]

/-- Unfolding one step of `runFrames`. -/
theorem runFrames_cons (h : Hub) (idStr : String) (s : Int × Frame)
    (rest : List (Int × Frame)) :
    h.runFrames idStr (s :: rest) =
      (h.handleFrame idStr s.1 s.2).runFrames idStr rest := rfl

/-- Any sequence of inbound frames preserves the identity store and the
client's id, token and name. -/
theorem runFrames_inv (h : Hub) (idStr : String) (steps : List (Int × Frame))
    (c : Client) (hf : h.findClient idStr = some c) :
    (h.runFrames idStr steps).identities = h.identities ∧
    ∃ c2, (h.runFrames idStr steps).findClient idStr = some c2 ∧
      c2.id = c.id ∧ c2.token = c.token ∧ c2.name = c.name := by
  induction steps generalizing h c with
  | nil => exact ⟨rfl, c, hf, rfl, rfl, rfl⟩
  | cons s rest ih =>
    obtain ⟨c1, hf1, hid1, htok1, hnm1⟩ := handleFrame_inv h idStr s.1 s.2 c hf
    obtain ⟨hidents, c2, hf2, hid2, htok2, hnm2⟩ :=
      ih (h.handleFrame idStr s.1 s.2) c1 hf1
    rw [runFrames_cons]
    exact ⟨hidents.trans (handleFrame_identities h idStr s.1 s.2),
      c2, hf2, hid2.trans hid1, htok2.trans htok1, hnm2.trans hnm1⟩

/-- Lookup finds a freshly created identity record. -/
theorem lookupIdent_cons_self (ids : List (String × Identity)) (tok : String)
    (i : Identity) : lookupIdent ((tok, i) :: ids) tok = some i := by
  unfold lookupIdent
  rw [List.find?_cons_of_pos _ (by simp)]
  rfl

/-- Updating the only record for a token rewrites exactly that record. -/
theorem updateIdent_cons_head (ids : List (String × Identity)) (tok : String)
    (i j : Identity) (hnone : lookupIdent ids tok = none) :
    updateIdent ((tok, i) :: ids) tok j = (tok, j) :: ids := by
  unfold updateIdent
  rw [List.map_cons, if_pos rfl]
  congr 1
  have hfnone : List.find? (fun p => decide (p.1 = tok)) ids = none := by
    unfold lookupIdent at hnone
    cases hfind : List.find? (fun p => decide (p.1 = tok)) ids with
    | none => rfl
    | some q => rw [hfind] at hnone; simp at hnone
  have hall : ∀ p ∈ ids, ¬ p.1 = tok := by
    intro p hp
    have h2 := List.find?_eq_none.mp hfnone p hp
    simpa using h2
  calc ids.map (fun p => if p.1 = tok then (tok, j) else p)
      = ids.map id := List.map_congr_left (fun p hp => by rw [if_neg (hall p hp)]; rfl)
    _ = ids := List.map_id ids

/-- After admission the newcomer is found holding only its welcome. -/
theorem serveWS_findClient (h : Hub) (raw : String) (rnd : RandSrc) (newId : String)
    (hfresh : ∀ c ∈ h.clients, c.id ≠ newId) :
    (h.serveWS raw rnd newId).1.findClient newId =
      some { (h.serveWS raw rnd newId).2 with
        send := [ServerMsg.welcome newId (h.serveWS raw rnd newId).2.name
          (h.serveWS raw rnd newId).2.x (h.serveWS raw rnd newId).2.y
          (h.clients.map (fun c => ⟨c.id, c.name, c.x, c.y⟩))] } := by
  unfold Hub.findClient
  rw [serveWS_clients h raw rnd newId hfresh, List.find?_append]
  have hleft : (h.clients.map (fun c => enqueue c (ServerMsg.join newId
      (h.serveWS raw rnd newId).2.name (h.serveWS raw rnd newId).2.x
      (h.serveWS raw rnd newId).2.y))).find?
        (fun c => decide (c.id = newId)) = none := by
    apply List.find?_eq_none.mpr
    intro x hx
    obtain ⟨c, hc, hcx⟩ := List.mem_map.mp hx
    subst hcx
    rw [enqueue_id]
    simpa using hfresh c hc
  rw [hleft]
  rw [List.find?_cons_of_pos _ (by rw [serveWS_client_eq]; simp)]
  rfl

/-- Teardown persists the client's final position into its identity
record (before the client is removed from the live set — removal and the
`leave` broadcast leave the identity store as written). -/
theorem teardown_identities (h : Hub) (idStr : String) (c : Client)
    (hf : h.findClient idStr = some c) (htok : c.token ≠ "")
    (ident : Identity) (hlook : lookupIdent h.identities c.token = some ident) :
    (h.teardownClient idStr).identities =
      updateIdent h.identities c.token ⟨ident.name, c.x, c.y⟩ := by
  unfold Hub.teardownClient
  rw [hf]
  show (Hub.broadcastAll _ _).identities = _
  unfold Hub.broadcastAll Hub.broadcast Hub.removeClient
  show (if c.token ≠ "" then _ else _ : Hub).identities = _
  rw [if_pos htok, hlook]

/-- C4: identity durability. Starting from any hub in which the token is
unseen and the connection id fresh: connect with a nonempty token of at
most 64 characters, process any sequence of inbound frames, disconnect
(teardown), and reconnect with the same token — the reconnected client
resolves to exactly the name generated at the first connection and the
position the client held at the moment of disconnect; moreover the
identity record after teardown already holds that final position (it is
persisted before the participant is removed from the live set). -/
theorem claim_C4 (h0 : Hub) (tok : String) (rnd1 rnd2 : RandSrc)
    (id1 id2 : String) (steps : List (Int × Frame))
    (htok : tok ≠ "") (hlen : tok.length ≤ 64)
    (hnew : lookupIdent h0.identities tok = none)
    (hfresh : ∀ c ∈ h0.clients, c.id ≠ id1) :
    ∀ ce : Client,
      ((h0.serveWS tok rnd1 id1).1.runFrames id1 steps).findClient id1 = some ce →
      ((((h0.serveWS tok rnd1 id1).1.runFrames id1 steps).teardownClient id1).serveWS
          tok rnd2 id2).2.name = (h0.serveWS tok rnd1 id1).2.name ∧
      ((((h0.serveWS tok rnd1 id1).1.runFrames id1 steps).teardownClient id1).serveWS
          tok rnd2 id2).2.x = ce.x ∧
      ((((h0.serveWS tok rnd1 id1).1.runFrames id1 steps).teardownClient id1).serveWS
          tok rnd2 id2).2.y = ce.y ∧
      lookupIdent ((((h0.serveWS tok rnd1 id1).1.runFrames id1 steps).teardownClient
          id1).identities) tok =
        some ⟨(h0.serveWS tok rnd1 id1).2.name, ce.x, ce.y⟩ := by
  intro ce hce
  have htoklit : (if tok.length > 64 then "" else tok) = tok := if_neg (by omega)
  have hres1 := resolveIdentity_new h0 tok rnd1 htok hnew
  have hcl1 : (h0.serveWS tok rnd1 id1).2 =
      { id := id1, token := tok, name := generateName rnd1.adjIdx rnd1.nounIdx,
        x := spawnX rnd1.rx, y := spawnY rnd1.ry,
        lastMove := 0, lastChat := 0, send := [] } := by
    rw [serveWS_client_eq, htoklit, hres1]
  have hids1 : (h0.serveWS tok rnd1 id1).1.identities =
      (tok, ⟨generateName rnd1.adjIdx rnd1.nounIdx, spawnX rnd1.rx,
        spawnY rnd1.ry⟩) :: h0.identities := by
    rw [serveWS_identities, htoklit, hres1]
  have hfc := serveWS_findClient h0 tok rnd1 id1 hfresh
  obtain ⟨hidents2, c2, hf2, hid2, htok2, hnm2⟩ :=
    runFrames_inv (h0.serveWS tok rnd1 id1).1 id1 steps _ hfc
  have hc2ce : c2 = ce := by
    rw [hce] at hf2
    exact (Option.some.inj hf2).symm
  subst hc2ce
  have hcetok : c2.token = tok := htok2.trans (by rw [hcl1])
  have hcenm : c2.name = generateName rnd1.adjIdx rnd1.nounIdx :=
    hnm2.trans (by rw [hcl1])
  have hids2 : ((h0.serveWS tok rnd1 id1).1.runFrames id1 steps).identities =
      (tok, ⟨generateName rnd1.adjIdx rnd1.nounIdx, spawnX rnd1.rx,
        spawnY rnd1.ry⟩) :: h0.identities := hidents2.trans hids1
  have hlook2 : lookupIdent
      ((h0.serveWS tok rnd1 id1).1.runFrames id1 steps).identities c2.token =
      some ⟨generateName rnd1.adjIdx rnd1.nounIdx, spawnX rnd1.rx, spawnY rnd1.ry⟩ := by
    rw [hcetok, hids2]
    exact lookupIdent_cons_self _ _ _
  have htd := teardown_identities ((h0.serveWS tok rnd1 id1).1.runFrames id1 steps)
    id1 c2 hce (by rw [hcetok]; exact htok) _ hlook2
  have hids3 : (((h0.serveWS tok rnd1 id1).1.runFrames id1 steps).teardownClient
      id1).identities =
      (tok, ⟨generateName rnd1.adjIdx rnd1.nounIdx, c2.x, c2.y⟩) :: h0.identities := by
    rw [htd, hcetok, hids2]
    exact updateIdent_cons_head _ _ _ _ hnew
  have hgoal4 : lookupIdent ((((h0.serveWS tok rnd1 id1).1.runFrames id1
      steps).teardownClient id1).identities) tok =
      some ⟨generateName rnd1.adjIdx rnd1.nounIdx, c2.x, c2.y⟩ := by
    rw [hids3]
    exact lookupIdent_cons_self _ _ _
  have hres2 := resolveIdentity_found
    (((h0.serveWS tok rnd1 id1).1.runFrames id1 steps).teardownClient id1)
    tok rnd2 ⟨generateName rnd1.adjIdx rnd1.nounIdx, c2.x, c2.y⟩ htok hgoal4
  refine ⟨?_, ?_, ?_, ?_⟩
  · rw [serveWS_client_eq]
    show (Hub.resolveIdentity _ _ rnd2).2.1 = _
    rw [htoklit, hres2, hcl1]
  · rw [serveWS_client_eq]
    show (Hub.resolveIdentity _ _ rnd2).2.2.1 = _
    rw [htoklit, hres2]
  · rw [serveWS_client_eq]
    show (Hub.resolveIdentity _ _ rnd2).2.2.2 = _
    rw [htoklit, hres2]
  · rw [hgoal4, hcl1]

/-- Witness for C4: connect, disconnect, reconnect on an empty hub. -/
theorem claim_C4_witness :
    ((((emptyHub.serveWS "tok" ⟨0, 0, 0, 0⟩ "u1").1.runFrames "u1"
        []).teardownClient "u1").serveWS "tok" ⟨1, 1, 1/2, 1/2⟩ "u2").2.name =
      (emptyHub.serveWS "tok" ⟨0, 0, 0, 0⟩ "u1").2.name ∧
    ((((emptyHub.serveWS "tok" ⟨0, 0, 0, 0⟩ "u1").1.runFrames "u1"
        []).teardownClient "u1").serveWS "tok" ⟨1, 1, 1/2, 1/2⟩ "u2").2.x =
      ({ (emptyHub.serveWS "tok" ⟨0, 0, 0, 0⟩ "u1").2 with
        send := [ServerMsg.welcome "u1"
          (emptyHub.serveWS "tok" ⟨0, 0, 0, 0⟩ "u1").2.name
          (emptyHub.serveWS "tok" ⟨0, 0, 0, 0⟩ "u1").2.x
          (emptyHub.serveWS "tok" ⟨0, 0, 0, 0⟩ "u1").2.y
          (emptyHub.clients.map (fun c => ⟨c.id, c.name, c.x, c.y⟩))] } : Client).x := by
  have hfresh : ∀ c ∈ emptyHub.clients, c.id ≠ "u1" := by
    intro c hc
    simp [emptyHub] at hc
  have h := claim_C4 emptyHub "tok" ⟨0, 0, 0, 0⟩ ⟨1, 1, 1/2, 1/2⟩ "u1" "u2" []
    (by decide) (by decide) rfl hfresh _
    (serveWS_findClient emptyHub "tok" ⟨0, 0, 0, 0⟩ "u1" hfresh)
  exact ⟨h.1, h.2.1⟩

theorem hardBreak_le (line r : List Char) :
    line.length ≤ 20 →
    ((∀ l ∈ (hardBreak line r).1, l.length ≤ 20) ∧
      (hardBreak line r).2.length ≤ 20) := by
  induction line, r using hardBreak.induct with
  | case1 line =>
    intro hline
    rw [hardBreak]
    exact ⟨by intro l hl; simp at hl, hline⟩
  | case2 line r0 rrest h1 =>
    intro hline
    rw [hardBreak, if_pos h1]
    refine ⟨by intro l hl; simp at hl, ?_⟩
    unfold joinLine
    rw [hbSpace, BUBBLE_LINE_CHARS] at h1
    split_ifs with hl
    · rw [hl] at h1
      simp at h1 ⊢
      omega
    · rw [if_neg hl] at h1
      simp [List.length_append] at h1 ⊢
      omega
  | case3 line r0 rrest h1 h2 k ih =>
    intro hline
    rw [hardBreak, if_neg h1, dif_pos h2]
    obtain ⟨ihp, ihf⟩ := ih (by simp)
    refine ⟨?_, ihf⟩
    intro l hl
    simp only [List.mem_cons] at hl
    rcases hl with hl | hl
    · subst hl
      by_cases hle : line = []
      · subst hle
        simp [joinLine, hbSpace, BUBBLE_LINE_CHARS, List.length_append,
          List.length_take] at h1 h2 ⊢
      · simp [joinLine, hbSpace, BUBBLE_LINE_CHARS, hle, List.length_append,
          List.length_take] at h1 h2 ⊢
        omega
    · exact ihp l hl
  | case4 line r0 rrest h1 h2 ih =>
    intro hline
    rw [hardBreak, if_neg h1, dif_neg h2]
    obtain ⟨ihp, ihf⟩ := ih (by simp)
    refine ⟨?_, ihf⟩
    intro l hl
    split_ifs at hl with hle
    · exact ihp l hl
    · simp only [List.mem_cons] at hl
      rcases hl with hl | hl
      · subst hl
        exact hline
      · exact ihp l hl

/-- Hard-breaking a nonempty word leaves a nonempty open line. -/
theorem hardBreak_fin_ne (line r : List Char) :
    r ≠ [] → (hardBreak line r).2 ≠ [] := by
  induction line, r using hardBreak.induct with
  | case1 line =>
    intro hr
    exact absurd rfl hr
  | case2 line r0 rrest h1 =>
    intro hr
    rw [hardBreak, if_pos h1]
    unfold joinLine
    split_ifs with hl
    · simp
    · simp
  | case3 line r0 rrest h1 h2 k ih =>
    intro hr
    rw [hardBreak, if_neg h1, dif_pos h2]
    apply ih
    apply List.ne_nil_of_length_pos
    rw [List.length_drop]
    have hk : (k : Int) = hbSpace line - 1 := Int.toNat_of_nonneg (by omega)
    omega
  | case4 line r0 rrest h1 h2 ih =>
    intro hr
    rw [hardBreak, if_neg h1, dif_neg h2]
    exact ih hr

/-- Every line the hard-break loop pushes, when entered with an empty
open line, ends with the inserted break hyphen. -/
theorem hardBreak_nil_hyphen (line r : List Char) :
    line = [] → ∀ l ∈ (hardBreak line r).1, l.getLast? = some '-' := by
  induction line, r using hardBreak.induct with
  | case1 line =>
    intro _ l hl
    rw [hardBreak] at hl
    simp at hl
  | case2 line r0 rrest h1 =>
    intro _ l hl
    rw [hardBreak, if_pos h1] at hl
    exact absurd hl (List.not_mem_nil l)
  | case3 line r0 rrest h1 h2 k ih =>
    intro hle l hl
    subst hle
    rw [hardBreak, if_neg h1, dif_pos h2] at hl
    simp only [List.mem_cons] at hl
    rcases hl with hl | hl
    · subst hl
      show (joinLine [] _).getLast? = some '-'
      unfold joinLine
      rw [if_pos rfl]
      exact List.getLast?_concat _
    · exact ih rfl l hl
  | case4 line r0 rrest h1 h2 ih =>
    intro hle l hl
    subst hle
    exfalso
    simp [hbSpace, BUBBLE_LINE_CHARS] at h2

/-- Hard-breaking a word longer than the width pushes at least one line. -/
theorem hardBreak_pushed_ne (w : List Char) (hw : w.length > 20) :
    (hardBreak [] w).1 ≠ [] := by
  cases w with
  | nil => simp at hw
  | cons r0 rrest =>
    have h1 : ¬ (((r0 :: rrest).length : Int) ≤ hbSpace []) := by
      simp only [hbSpace, BUBBLE_LINE_CHARS, List.length_cons] at *
      omega
    have h2 : hbSpace ([] : List Char) > 1 := by
      simp [hbSpace, BUBBLE_LINE_CHARS]
    rw [hardBreak, if_neg h1, dif_pos h2]
    simp

/-- Spaces are separator characters. -/
theorem keepChar_space : keepChar ' ' = false := rfl

/-- Hyphens are (potential) break characters. -/
theorem keepChar_hyphen : keepChar '-' = false := rfl

/-- Joining drops no kept character: only a space separator is added. -/
theorem joinLine_filter (line w : List Char) :
    (joinLine line w).filter keepChar =
      line.filter keepChar ++ w.filter keepChar := by
  unfold joinLine
  split_ifs with hl
  · simp [hl]
  · rw [List.filter_append, List.filter_cons, keepChar_space]
    simp

/-- The hard-break loop preserves every kept character, in order. -/
theorem hardBreak_filter (line r : List Char) :
    ((hardBreak line r).1.flatten ++ (hardBreak line r).2).filter keepChar =
      line.filter keepChar ++ r.filter keepChar := by
  induction line, r using hardBreak.induct with
  | case1 line =>
    rw [hardBreak]
    simp
  | case2 line r0 rrest h1 =>
    rw [hardBreak, if_pos h1]
    simp [joinLine_filter]
  | case3 line r0 rrest h1 h2 k ih =>
    rw [hardBreak, if_neg h1, dif_pos h2]
    simp only [List.flatten_cons, List.append_assoc, List.filter_append,
      joinLine_filter, List.filter_nil, List.nil_append] at ih ⊢
    rw [ih]
    have hhyp : List.filter keepChar ['-'] = [] := rfl
    rw [hhyp]
    rw [List.nil_append, ← List.filter_append, List.take_append_drop]
  | case4 line r0 rrest h1 h2 ih =>
    rw [hardBreak, if_neg h1, dif_neg h2]
    split_ifs with hle
    · subst hle
      simpa using ih
    · simp only [List.flatten_cons, List.append_assoc, List.filter_append] at ih ⊢
      rw [ih]
      simp

/-- `wrapStep`, branch: the word fits on the current line. -/
theorem wrapStep_eq_join (lines : List (List Char)) (line word : List Char)
    (h1 : (line.length : Int) + word.length + (if line = [] then 0 else 1) ≤
      BUBBLE_LINE_CHARS) :
    wrapStep (lines, line) word = (lines, joinLine line word) := by
  unfold wrapStep
  simp only
  rw [if_pos h1]

/-- `wrapStep`, branch: the word fits on a fresh line. -/
theorem wrapStep_eq_push (lines : List (List Char)) (line word : List Char)
    (h1 : ¬ (line.length : Int) + word.length + (if line = [] then 0 else 1) ≤
      BUBBLE_LINE_CHARS)
    (h2 : (word.length : Int) ≤ BUBBLE_LINE_CHARS) :
    wrapStep (lines, line) word =
      ((if line = [] then lines else lines ++ [line]), word) := by
  unfold wrapStep
  simp only
  rw [if_neg h1, if_pos h2]

/-- `wrapStep`, branch: the word must be hard-broken. -/
theorem wrapStep_eq_hard (lines : List (List Char)) (line word : List Char)
    (h1 : ¬ (line.length : Int) + word.length + (if line = [] then 0 else 1) ≤
      BUBBLE_LINE_CHARS)
    (h2 : ¬ (word.length : Int) ≤ BUBBLE_LINE_CHARS) :
    wrapStep (lines, line) word =
      (lines ++ (hardBreak line word).1, (hardBreak line word).2) := by
  unfold wrapStep
  simp only
  rw [if_neg h1, if_neg h2]

/-- One wrap step preserves the width bound on all lines. -/
theorem wrapStep_le (lines : List (List Char)) (line word : List Char)
    (hl : ∀ l ∈ lines, l.length ≤ 20) (hline : line.length ≤ 20) :
    (∀ l ∈ (wrapStep (lines, line) word).1, l.length ≤ 20) ∧
      (wrapStep (lines, line) word).2.length ≤ 20 := by
  by_cases h1 : (line.length : Int) + word.length + (if line = [] then 0 else 1) ≤
      BUBBLE_LINE_CHARS
  · rw [wrapStep_eq_join lines line word h1]
    refine ⟨hl, ?_⟩
    show (joinLine line word).length ≤ 20
    by_cases hle : line = []
    · subst hle
      simp only [joinLine, eq_self_iff_true, if_true]
      simp only [BUBBLE_LINE_CHARS, List.length_nil, eq_self_iff_true, if_true] at h1
      omega
    · simp only [joinLine, if_neg hle, List.length_append, List.length_cons]
      simp only [BUBBLE_LINE_CHARS, if_neg hle] at h1
      omega
  · by_cases h2 : (word.length : Int) ≤ BUBBLE_LINE_CHARS
    · rw [wrapStep_eq_push lines line word h1 h2]
      refine ⟨?_, ?_⟩
      · intro l hl2
        show l.length ≤ 20
        split_ifs at hl2 with hle
        · exact hl l hl2
        · rcases List.mem_append.mp hl2 with hmem | hmem
          · exact hl l hmem
          · simp only [List.mem_singleton] at hmem
            subst hmem
            exact hline
      · show word.length ≤ 20
        simp only [BUBBLE_LINE_CHARS] at h2
        omega
    · rw [wrapStep_eq_hard lines line word h1 h2]
      obtain ⟨hp, hf⟩ := hardBreak_le line word hline
      refine ⟨?_, hf⟩
      intro l hl2
      rcases List.mem_append.mp hl2 with hmem | hmem
      · exact hl l hmem
      · exact hp l hmem

/-- The word fold preserves the width bound. -/
theorem foldl_wrap_le (words : List (List Char)) (lines : List (List Char))
    (line : List Char) (hl : ∀ l ∈ lines, l.length ≤ 20)
    (hline : line.length ≤ 20) :
    (∀ l ∈ (words.foldl wrapStep (lines, line)).1, l.length ≤ 20) ∧
      (words.foldl wrapStep (lines, line)).2.length ≤ 20 := by
  induction words generalizing lines line with
  | nil => exact ⟨hl, hline⟩
  | cons w ws ih =>
    rw [List.foldl_cons]
    obtain ⟨h1, h2⟩ := wrapStep_le lines line w hl hline
    exact ih (wrapStep (lines, line) w).1 (wrapStep (lines, line) w).2 h1 h2

/-- One wrap step preserves every kept character, in order. -/
theorem wrapStep_filter (lines : List (List Char)) (line word : List Char) :
    (((wrapStep (lines, line) word).1.flatten ++
        (wrapStep (lines, line) word).2).filter keepChar) =
      ((lines.flatten ++ line).filter keepChar) ++ word.filter keepChar := by
  by_cases h1 : (line.length : Int) + word.length + (if line = [] then 0 else 1) ≤
      BUBBLE_LINE_CHARS
  · rw [wrapStep_eq_join lines line word h1]
    simp only [List.filter_append, joinLine_filter, List.append_assoc]
  · by_cases h2 : (word.length : Int) ≤ BUBBLE_LINE_CHARS
    · rw [wrapStep_eq_push lines line word h1 h2]
      split_ifs with hle <;>
        simp [hle, List.filter_append, List.flatten_append, List.append_assoc]
    · rw [wrapStep_eq_hard lines line word h1 h2]
      have hhb := hardBreak_filter line word
      simp only [List.filter_append] at hhb
      simp only [List.flatten_append, List.filter_append, List.append_assoc]
      rw [hhb]

/-- The word fold preserves every kept character, in order. -/
theorem foldl_wrap_filter (words : List (List Char)) (lines : List (List Char))
    (line : List Char) :
    (((words.foldl wrapStep (lines, line)).1.flatten ++
        (words.foldl wrapStep (lines, line)).2).filter keepChar) =
      ((lines.flatten ++ line).filter keepChar) ++
        (words.flatten.filter keepChar) := by
  induction words generalizing lines line with
  | nil => simp
  | cons w ws ih =>
    rw [List.foldl_cons]
    have hstep := wrapStep_filter lines line w
    have hrec := ih (wrapStep (lines, line) w).1 (wrapStep (lines, line) w).2
    rw [List.flatten_cons]
    calc ((ws.foldl wrapStep (wrapStep (lines, line) w)).1.flatten ++
            (ws.foldl wrapStep (wrapStep (lines, line) w)).2).filter keepChar
        = (((wrapStep (lines, line) w).1.flatten ++
            (wrapStep (lines, line) w).2).filter keepChar) ++
            ws.flatten.filter keepChar := hrec
      _ = (((lines.flatten ++ line).filter keepChar) ++ w.filter keepChar) ++
            ws.flatten.filter keepChar := by rw [hstep]
      _ = ((lines.flatten ++ line).filter keepChar) ++
            (w ++ ws.flatten).filter keepChar := by
            rw [List.filter_append w, List.append_assoc]

/-- JavaScript `split` never returns an empty array. -/
theorem splitOnSpace_ne_nil (t : List Char) : splitOnSpace t ≠ [] := by
  induction t with
  | nil => simp [splitOnSpace]
  | cons c rest ih =>
    unfold splitOnSpace
    split_ifs with hc
    · simp
    · cases hsp : splitOnSpace rest with
      | nil => simp
      | cons w ws => simp

/-- Splitting on spaces keeps exactly the non-space characters. -/
theorem splitOnSpace_flatten (t : List Char) :
    (splitOnSpace t).flatten = t.filter (fun c => !(decide (c = ' '))) := by
  induction t with
  | nil => simp [splitOnSpace]
  | cons c rest ih =>
    unfold splitOnSpace
    split_ifs with hc
    · subst hc
      simp only [List.flatten_cons, List.nil_append, ih, List.filter_cons]
      simp
    · cases hsp : splitOnSpace rest with
      | nil => exact absurd hsp (splitOnSpace_ne_nil rest)
      | cons w ws =>
        rw [hsp] at ih
        simp only [List.flatten_cons] at ih
        simp only [List.flatten_cons, List.cons_append, List.filter_cons]
        simp [hc, ih]

/-- A text without spaces is a single word. -/
theorem splitOnSpace_no_space (w : List Char) (hw : ∀ ch ∈ w, ch ≠ ' ') :
    splitOnSpace w = [w] := by
  induction w with
  | nil => rfl
  | cons c rest ih =>
    unfold splitOnSpace
    rw [if_neg (hw c (List.mem_cons_self c rest))]
    rw [ih (fun ch hch => hw ch (List.mem_cons_of_mem c hch))]

/-- Every wrapped line fits the 20-character bubble width. -/
theorem wrapText_lines_le (text : List Char) :
    ∀ l ∈ wrapText text, l.length ≤ 20 := by
  intro l hl
  unfold wrapText at hl
  simp only at hl
  obtain ⟨hlines, hline⟩ := foldl_wrap_le (splitOnSpace text) [] []
    (by intro l2 hl2; simp at hl2) (by simp)
  split_ifs at hl with hfin
  · exact hlines l hl
  · rcases List.mem_append.mp hl with hmem | hmem
    · exact hlines l hmem
    · simp only [List.mem_singleton] at hmem
      subst hmem
      exact hline

/-- A single word longer than the width wraps to at least two lines,
each line before the last ending in the break hyphen. -/
theorem wrapText_long_word (w : List Char) (hw : ∀ ch ∈ w, ch ≠ ' ')
    (hlen : w.length > 20) :
    2 ≤ (wrapText w).length ∧
      ∀ l ∈ (wrapText w).dropLast, l.getLast? = some '-' := by
  have hsplit := splitOnSpace_no_space w hw
  have h1 : ¬ ((([] : List Char).length : Int) + w.length +
      (if ([] : List Char) = [] then 0 else 1) ≤ BUBBLE_LINE_CHARS) := by
    simp [BUBBLE_LINE_CHARS]
    omega
  have h2 : ¬ ((w.length : Int) ≤ BUBBLE_LINE_CHARS) := by
    simp [BUBBLE_LINE_CHARS]
    omega
  have hfoldl : (splitOnSpace w).foldl wrapStep ([], []) =
      ([] ++ (hardBreak [] w).1, (hardBreak [] w).2) := by
    rw [hsplit, List.foldl_cons, List.foldl_nil, wrapStep_eq_hard [] [] w h1 h2]
  have hfin : (hardBreak [] w).2 ≠ [] :=
    hardBreak_fin_ne [] w (List.ne_nil_of_length_pos (by omega))
  have hpush : (hardBreak [] w).1 ≠ [] := hardBreak_pushed_ne w hlen
  unfold wrapText
  rw [hfoldl]
  simp only [List.nil_append]
  rw [if_neg hfin]
  constructor
  · have hp1 : 0 < (hardBreak [] w).1.length := List.length_pos.mpr hpush
    simp only [List.length_append, List.length_singleton]
    omega
  · intro l hl
    rw [List.dropLast_concat] at hl
    exact hardBreak_nil_hyphen [] w rfl l hl

/-- Wrapping loses no characters: the concatenation of the wrapped
lines, ignoring space separators and break hyphens, is exactly the
input ignoring the same characters. -/
theorem wrapText_flatten_filter (text : List Char) :
    ((wrapText text).flatten).filter keepChar = text.filter keepChar := by
  have h := foldl_wrap_filter (splitOnSpace text) [] []
  simp only [List.flatten_nil, List.nil_append, List.filter_nil] at h
  have hkeep : (List.filter (fun c => !(decide (c = ' '))) text).filter keepChar =
      text.filter keepChar := by
    rw [List.filter_filter]
    apply List.filter_congr
    intro a ha
    by_cases ha1 : a = ' ' <;> by_cases ha2 : a = '-' <;>
      simp [keepChar, ha1, ha2]
  unfold wrapText
  simp only
  split_ifs with hfin
  · rw [hfin] at h
    simp only [List.append_nil] at h
    rw [h, splitOnSpace_flatten, hkeep]
  · rw [List.flatten_append, List.flatten_cons, List.flatten_nil, List.append_nil,
      List.filter_append]
    rw [← List.filter_append, h, splitOnSpace_flatten, hkeep]

/-- C9: the chat-bubble word wrap produces lines of at most the
configured width (20 characters); a single word longer than the width is
split across at least two lines with a hyphen appended at each break
point (every line but the last ends in the hyphen) rather than producing
an over-wide line; and no characters of the input are lost — every
character other than the space separators (consumed by splitting and line
breaks) and the inserted break hyphens survives, in order. -/
theorem claim_C9 :
    (∀ text : List Char, ∀ l ∈ wrapText text, l.length ≤ 20) ∧
    (∀ w : List Char, (∀ ch ∈ w, ch ≠ ' ') → w.length > 20 →
      2 ≤ (wrapText w).length ∧
        ∀ l ∈ (wrapText w).dropLast, l.getLast? = some '-') ∧
    (∀ text : List Char,
      ((wrapText text).flatten).filter keepChar = text.filter keepChar) :=
  ⟨wrapText_lines_le, wrapText_long_word, wrapText_flatten_filter⟩

/-- Witness for C9: wrapping a 25-character word. -/
theorem claim_C9_witness :
    (∀ l ∈ wrapText (List.replicate 25 'a'), l.length ≤ 20) ∧
    2 ≤ (wrapText (List.replicate 25 'a')).length ∧
    (∀ l ∈ (wrapText (List.replicate 25 'a')).dropLast,
      l.getLast? = some '-') :=
  ⟨claim_C9.1 (List.replicate 25 'a'),
   (claim_C9.2.1 (List.replicate 25 'a') (by decide) (by decide)).1,
   (claim_C9.2.1 (List.replicate 25 'a') (by decide) (by decide)).2⟩

end CabbageTown
